import Mathlib

/-!
Shallow embedding of `AutoWeeklyReport.py`, a single-pass weekly-report
aggregation pipeline.  Python dictionaries of counters become structures over
`ℕ` (the counters are only ever incremented, so `ℕ` is an exact model of the
Python integers involved); the `defaultdict` contributor map becomes an
insertion-ordered association list with a get-or-create update; KPI scores,
which are Python floats that only ever take values in the half-integers
(weights 1, 2, 2.5, 3 added to 0), are modelled exactly as rationals;
timestamps and calendar dates are modelled as integers; code that raises a
Python exception returns `Except.error`.
-/

/-- The module-level `stats` dictionary of global counters. -/
structure Stats where
  add : ℕ
  fix : ℕ
  refactor : ℕ
  other_commits : ℕ
  issues_opened : ℕ
  issues_closed : ℕ
  bugs_closed : ℕ
  tasks_completed : ℕ
  deriving DecidableEq

/-- The initial all-zero `stats` dictionary. -/
def initStats : Stats := ⟨0, 0, 0, 0, 0, 0, 0, 0⟩

/-- One value of the `contributors` defaultdict: per-contributor counters and
the set of distinct active calendar dates (a Python `set`). -/
structure Contrib where
  kpi : ℚ
  bug_fixes : ℕ
  total_actions : ℕ
  add_commits : ℕ
  refactor_commits : ℕ
  active_days : Finset ℤ
  deriving DecidableEq

/-- The default value the `contributors` defaultdict creates on first access. -/
def defaultContrib : Contrib :=
  { kpi := 0, bug_fixes := 0, total_actions := 0, add_commits := 0,
    refactor_commits := 0, active_days := ∅ }

/-- One entry of the module-level `project_tasks` list.  The script stores the
update timestamp as a `strftime`-formatted string; the formatting is pure
display, so the timestamp is kept numeric here. -/
structure PTask where
  title : String
  status : String
  updated : ℤ
  deriving DecidableEq

/-- The shared mutable aggregate state: the `stats` dict, the `contributors`
defaultdict (as an insertion-ordered association list, mirroring Python dict
ordering), and the `project_tasks` list. -/
structure St where
  stats : Stats
  contributors : List (String × Contrib)
  tasks : List PTask
  deriving DecidableEq

/-- The state at module load: all counters zero, no contributors, no tasks. -/
def initSt : St := ⟨initStats, [], []⟩

/-- Python `str.lower`, character by character (all strings involved are
ASCII, where Python lowercasing is exactly charwise). -/
def lowerChars (s : List Char) : List Char := s.map Char.toLower

/-- Python substring containment, `pat in s`. -/
def containsSub (pat : List Char) : List Char → Bool
  | [] => pat.isEmpty
  | c :: cs => pat.isPrefixOf (c :: cs) || containsSub pat cs

/-- Read `contributors[a]`: the defaultdict yields `defaultContrib` for an
absent key. -/
def getContrib : List (String × Contrib) → String → Contrib
  | [], _ => defaultContrib
  | (k, v) :: rest, a => if k = a then v else getContrib rest a

/-- Mutate `contributors[a]` through `f`: an existing entry is updated in
place, an absent key is created (at the end, as Python dict insertion order
does) from the defaultdict default. -/
def updateContrib : List (String × Contrib) → String → (Contrib → Contrib) →
    List (String × Contrib)
  | [], a, f => [(a, f defaultContrib)]
  | (k, v) :: rest, a, f =>
    if k = a then (k, f v) :: rest else (k, v) :: updateContrib rest a f

/-- The `commit['commit']['author']` object: a name and the authoring date
(already reduced to a calendar date, as `parse(...).date()` does). -/
structure Author where
  name : String
  date : ℤ
  deriving DecidableEq

/-- One commit record as `get_commits` consumes it: the message and the
author object, which the GitHub API can return as `null`. -/
structure Commit where
  message : List Char
  author : Option Author
  deriving DecidableEq

/-- The body of the `for commit in commits` loop of `get_commits` (lines
74-98).  When the author object is `null`, line 76 substitutes `'Unknown'`
for the name but line 77 still subscripts the `null` author for the date,
which raises `TypeError` before any mutation happens. -/
def processCommit (c : Commit) (st : St) : Except String St :=
  match c.author with
  | none => Except.error "TypeError: NoneType object is not subscriptable"
  | some a =>
    let msg := lowerChars c.message
    let st1 :=
      if containsSub "fix".toList msg then
        { st with
          stats := { st.stats with fix := st.stats.fix + 1 },
          contributors := updateContrib st.contributors a.name
            (fun r => { r with kpi := r.kpi + 2.5, bug_fixes := r.bug_fixes + 1 }) }
      else if containsSub "add".toList msg || containsSub "enhancement".toList msg then
        { st with
          stats := { st.stats with add := st.stats.add + 1 },
          contributors := updateContrib st.contributors a.name
            (fun r => { r with kpi := r.kpi + 2, add_commits := r.add_commits + 1 }) }
      else if containsSub "refactor".toList msg then
        { st with
          stats := { st.stats with refactor := st.stats.refactor + 1 },
          contributors := updateContrib st.contributors a.name
            (fun r => { r with kpi := r.kpi + 1, refactor_commits := r.refactor_commits + 1 }) }
      else
        { st with
          stats := { st.stats with other_commits := st.stats.other_commits + 1 },
          contributors := updateContrib st.contributors a.name
            (fun r => { r with kpi := r.kpi + 1 }) }
    Except.ok
      { st1 with
        contributors := updateContrib st1.contributors a.name
          (fun r => { r with total_actions := r.total_actions + 1,
                             active_days := insert a.date r.active_days }) }

/-- The commit loop over the whole fetched list, propagating a raised
exception. -/
def processCommits : List Commit → St → Except String St
  | [], st => Except.ok st
  | c :: cs, st =>
    match processCommit c st with
    | Except.ok st2 => processCommits cs st2
    | Except.error e => Except.error e

/-- The JSON payload `response.json()` of the commits endpoint: either a list
of commit records or (on an API error) some non-list value. -/
inductive CommitsFetch where
  | ofList (commits : List Commit)
  | apiError
  deriving DecidableEq

/-- `get_commits` (lines 61-98): a non-list payload is caught by the
`isinstance` guard on line 69, printed, and the stage returns with no
mutation. -/
def get_commits (resp : CommitsFetch) (st : St) : Except String St :=
  match resp with
  | CommitsFetch.ofList cs => processCommits cs st
  | CommitsFetch.apiError => Except.ok st

/-- One issue record as `get_issues` consumes it (timestamps as integers,
labels by their `name` field). -/
structure Issue where
  created_at : ℤ
  closed_at : Option ℤ
  labels : List String
  user : String
  deriving DecidableEq

/-- The JSON payload of the issues endpoint.  `get_issues` has no
`isinstance` guard: a non-list payload is a JSON object (as the GitHub API
returns for errors), and `for issue in issues` then iterates the object's
keys, which are strings. -/
inductive IssuesFetch where
  | ofList (issues : List Issue)
  | ofDict (keys : List String)
  deriving DecidableEq

/-- The body of the `for issue in issues` loop of `get_issues` (lines
110-127).  `wstart` is the window bound `now - timedelta(days=7)`. -/
def processIssue (wstart : ℤ) (i : Issue) (st : St) : St :=
  let is_bug := i.labels.any (fun l => lowerChars l.toList == "bug".toList)
  let st1 :=
    if wstart ≤ i.created_at then
      { st with stats := { st.stats with issues_opened := st.stats.issues_opened + 1 } }
    else st
  match i.closed_at with
  | some t =>
    if wstart ≤ t then
      let st2 :=
        { st1 with stats := { st1.stats with issues_closed := st1.stats.issues_closed + 1 } }
      let st3 :=
        if is_bug then
          { st2 with stats := { st2.stats with bugs_closed := st2.stats.bugs_closed + 1 } }
        else st2
      { st3 with
        contributors := updateContrib st3.contributors i.user
          (fun r => { r with kpi := r.kpi + 2, total_actions := r.total_actions + 1 }) }
    else st1
  | none => st1

/-- `get_issues` (lines 103-127).  On a list payload the loop runs to
completion; on a JSON-object payload the loop iterates the keys and the very
first subscript `issue['created_at']` on a string key raises `TypeError`
before any mutation (an empty object iterates zero keys and falls through
silently). -/
def get_issues (wstart : ℤ) (resp : IssuesFetch) (st : St) : Except String St :=
  match resp with
  | IssuesFetch.ofList l => Except.ok (l.foldl (fun s i => processIssue wstart i s) st)
  | IssuesFetch.ofDict [] => Except.ok st
  | IssuesFetch.ofDict (_ :: _) => Except.error "TypeError: string indices must be integers"

/-- One `fieldValues` node of a project item: an optional single-select
`name` and an optional free-text `text`. -/
structure FieldValue where
  name : Option String
  text : Option String
  deriving DecidableEq

/-- One project-board item as the loop in `get_project_tasks` consumes it.
`content` is `null`, or a content block whose `title` may be missing. -/
structure PItem where
  updatedAt : ℤ
  content : Option (Option String)
  fieldValues : List FieldValue
  deriving DecidableEq

/-- Python truthiness of an optional string: `None` and `''` are falsy. -/
def truthy : Option String → Option String
  | some s => if s.isEmpty then none else some s
  | none => none

/-- Python `str.lower` on a `String`. -/
def lowerS (s : String) : String := ⟨lowerChars s.toList⟩

/-- The `status_list` computed on lines 176-183: for each field value take
its truthy `name`, else its truthy `text`, lowercased; skip fields with
neither. -/
def statusList (it : PItem) : List String :=
  it.fieldValues.foldr
    (fun fv acc =>
      match truthy fv.name with
      | some n => lowerS n :: acc
      | none =>
        match truthy fv.text with
        | some t => lowerS t :: acc
        | none => acc)
    []

/-- The title expression on line 173: `'Untitled'` when the content block is
falsy or has no title. -/
def itemTitle (it : PItem) : String :=
  match it.content with
  | some (some t) => t
  | some none => "Untitled"
  | none => "Untitled"

/-- The body of the `for item in items` loop of `get_project_tasks` (lines
171-194): an item inside the trailing window bumps `tasks_completed` when
any status is `done`/`completed` and is appended to `project_tasks`; an item
outside the window is skipped entirely. -/
def processItem (wstart : ℤ) (it : PItem) (st : St) : St :=
  let sl := statusList it
  if wstart ≤ it.updatedAt then
    let st1 :=
      if sl.any (fun s => s == "done" || s == "completed") then
        { st with stats := { st.stats with tasks_completed := st.stats.tasks_completed + 1 } }
      else st
    { st1 with
      tasks := st1.tasks ++ [{ title := itemTitle it, status := sl.headD "unknown",
                               updated := it.updatedAt }] }
  else st

/-- The project-task loop over a well-formed item list (the surrounding
`try/except` only matters for malformed nesting, which the typed `PItem`
rules out). -/
def get_project_tasks (wstart : ℤ) (items : List PItem) (st : St) : St :=
  items.foldl (fun s it => processItem wstart it s) st

/-- `calculate_kpi` (lines 201-208): the global KPI from the global stats. -/
def calculate_kpi (s : Stats) : ℚ :=
  2 * s.add + 2.5 * s.fix + 2 * s.bugs_closed + 3 * s.tasks_completed

/-- Helper state machine for `re.findall(r'\d+', fname)`: accumulate the
current maximal digit run (reversed) while scanning. -/
def runsAux : List Char → List Char → List (List Char)
  | cur, [] => if cur.isEmpty then [] else [cur.reverse]
  | cur, c :: cs =>
    if c.isDigit then runsAux (c :: cur) cs
    else if cur.isEmpty then runsAux [] cs
    else cur.reverse :: runsAux [] cs

/-- `re.findall(r'\d+', s)`: the maximal digit runs of `s`, left to right. -/
def digitRuns (s : List Char) : List (List Char) := runsAux [] s

/-- Numeric value of an ASCII digit character. -/
def charDigit (c : Char) : ℕ := c.toNat - 48

/-- Python `int` on a nonempty string of decimal digits. -/
def parseNat (ds : List Char) : ℕ := ds.foldl (fun a c => 10 * a + charDigit c) 0

/-- Line 226, `int(re.findall(r'\d+', fname)[-1])`: the last digit run of
the filename; `none` models the `IndexError` a digitless filename raises. -/
def lastNum (s : List Char) : Option ℕ := (digitRuns s).getLast?.map parseNat

/-- Whether the list starts with the two-character bold delimiter `**`. -/
def starsAt : List Char → Bool
  | a :: b :: _ => a == '*' && b == '*'
  | _ => false

/-- An anchored match of the pattern `\*\*(\d+(?:\.\d+)?)\*\*` at the head of
the list, returning the captured group.  Greedy `\d+` runs never need to give
digits back here because the following characters (`.` or `*`) are not
digits, so maximal munch is exact regex semantics. -/
def matchBold : List Char → Option (List Char)
  | a :: b :: rest =>
    if a == '*' && b == '*' then
      let ds := rest.takeWhile Char.isDigit
      let r1 := rest.dropWhile Char.isDigit
      if ds.isEmpty then none
      else
        match r1 with
        | c :: r2 =>
          if c == '.' then
            let fs := r2.takeWhile Char.isDigit
            let r3 := r2.dropWhile Char.isDigit
            if !fs.isEmpty && starsAt r3 then some (ds ++ c :: fs) else none
          else if starsAt (c :: r2) then some ds
          else none
        | [] => none
    else none
  | _ => none

/-- `re.search` for the bold-number pattern: the leftmost anchored match. -/
def searchBold : List Char → Option (List Char)
  | [] => none
  | c :: cs => (matchBold (c :: cs)).orElse (fun _ => searchBold cs)

/-- Python `float` on a captured `\d+(\.\d+)?` group, as an exact rational
(all values round-tripped by the script are half-integers, which binary
floats represent exactly). -/
def parseDec (s : List Char) : ℚ :=
  let ip := s.takeWhile (fun c => c != '.')
  match s.dropWhile (fun c => c != '.') with
  | [] => (parseNat ip : ℚ)
  | _ :: fs => (parseNat ip : ℚ) + (parseNat fs : ℚ) / (10 : ℚ) ^ fs.length

/-- Lines 231-233: search one line for the bolded decimal and parse it. -/
def parseBold (line : List Char) : Option ℚ := (searchBold line).map parseDec

/-- The marker substring checked on line 230. -/
def kpiMarker : List Char := "This Week KPI:".toList

/-- The inner `for line in f` loop of `get_previous_week_kpi` (lines
229-233): return the value of the first line that contains the marker and
whose bold-number search succeeds; a marker line whose search fails is
passed over. -/
def findKpiLines (lines : List (List Char)) : Option ℚ :=
  lines.findSome? (fun l => if containsSub kpiMarker l then parseBold l else none)

/-- Python string comparison: lexicographic on code points, a strict prefix
compares less. -/
def lexLt : List Char → List Char → Bool
  | _, [] => false
  | [], _ :: _ => true
  | a :: as, b :: bs =>
    if a.toNat < b.toNat then true
    else if b.toNat < a.toNat then false
    else lexLt as bs

/-- Insert a (filename, lines) pair into a lexicographically descending list. -/
def insDesc (x : List Char × List (List Char)) :
    List (List Char × List (List Char)) → List (List Char × List (List Char))
  | [] => [x]
  | y :: ys => if lexLt x.1 y.1 then y :: insDesc x ys else x :: y :: ys

/-- `sorted(..., reverse=True)` on filenames: descending lexicographic order. -/
def sortDesc (l : List (List Char × List (List Char))) :
    List (List Char × List (List Char)) :=
  l.foldr insDesc []

/-- The filename filter on line 220, `f.startswith("Weekly_Report_Week_")`. -/
def weekFileStart : List Char := "Weekly_Report_Week_".toList

/-- The outer `for fname in report_files` loop of `get_previous_week_kpi`
(lines 225-234) over the already-sorted filtered filenames: a file whose
embedded week number is not below `cw` is skipped; a qualifying file whose
line scan finds no value does NOT return 0 — the loop continues to the next
(older) filename; only after the whole list is exhausted does the function
return 0. -/
def scanReports (cw : ℕ) : List (List Char × List (List Char)) → Except String ℚ
  | [] => Except.ok 0
  | (fname, ls) :: rest =>
    match lastNum fname with
    | none => Except.error "IndexError: list index out of range"
    | some w =>
      if w < cw then
        match findKpiLines ls with
        | some v => Except.ok v
        | none => scanReports cw rest
      else scanReports cw rest

/-- `get_previous_week_kpi` (lines 213-234).  `cw` is the current ISO week
number; the store is `none` when the `reports` directory does not exist,
else the directory listing with each file's lines. -/
def get_previous_week_kpi (cw : ℕ)
    (store : Option (List (List Char × List (List Char)))) : Except String ℚ :=
  match store with
  | none => Except.ok 0
  | some files =>
    scanReports cw (sortDesc (files.filter (fun f => weekFileStart.isPrefixOf f.1)))

/-- Python `max(items, key=key, default=None)`: the first element attaining
the maximum of `key`, in iteration order. -/
def pyMax {α β : Type} [LinearOrder β] (key : α → β) : List α → Option α
  | [] => none
  | x :: xs => some (xs.foldl (fun best y => if key best < key y then y else best) x)

/-- Append a badge label under a contributor name in the `badges`
defaultdict-of-lists. -/
def addBadge : List (String × List String) → String → String →
    List (String × List String)
  | [], n, l => [(n, [l])]
  | (k, v) :: rest, n, l =>
    if k = n then (k, v ++ [l]) :: rest else (k, v) :: addBadge rest n l

/-- `badges.get(name, [])`. -/
def getBadges : List (String × List String) → String → List String
  | [], _ => []
  | (k, v) :: rest, n => if k = n then v else getBadges rest n

/-- The five single-winner phases of `assign_badges` (lines 245-268), in
their fixed evaluation order; `Bug Squasher`, `Feature Creator`, and
`Code Refactorer` additionally require the winning maximum to be positive. -/
def badgePhases (cs : List (String × Contrib)) : List (String × List String) :=
  let b0 : List (String × List String) := []
  let b1 :=
    match pyMax (fun p => p.2.kpi) cs with
    | some t => addBadge b0 t.1 "Top Contributor"
    | none => b0
  let b2 :=
    match pyMax (fun p => p.2.bug_fixes) cs with
    | some t => if 0 < t.2.bug_fixes then addBadge b1 t.1 "Bug Squasher" else b1
    | none => b1
  let b3 :=
    match pyMax (fun p => p.2.total_actions) cs with
    | some t => addBadge b2 t.1 "Most Active"
    | none => b2
  let b4 :=
    match pyMax (fun p => p.2.add_commits) cs with
    | some t => if 0 < t.2.add_commits then addBadge b3 t.1 "Feature Creator" else b3
    | none => b3
  match pyMax (fun p => p.2.refactor_commits) cs with
  | some t => if 0 < t.2.refactor_commits then addBadge b4 t.1 "Code Refactorer" else b4
  | none => b4

/-- The final loop of `assign_badges` (lines 270-273): every contributor with
at least three distinct active days gains `Consistent Contributor`. -/
def consFold (cs : List (String × Contrib)) (b : List (String × List String)) :
    List (String × List String) :=
  cs.foldl
    (fun b p =>
      if 3 ≤ p.2.active_days.card then addBadge b p.1 "Consistent Contributor" else b)
    b

/-- `assign_badges` (lines 239-275): empty contributor map yields no badges;
otherwise the five single-winner phases followed by the consistency loop. -/
def assign_badges (cs : List (String × Contrib)) : List (String × List String) :=
  if cs.isEmpty then [] else consFold cs (badgePhases cs)

/-- Decimal digit characters of a natural number, as Python `str` renders an
`int` (no sign, no leading zeros, `0` for zero). -/
def natChars (m : ℕ) : List Char :=
  if m = 0 then ['0'] else (Nat.digits 10 m).reverse.map Nat.digitChar

/-- Python `str` of the float `n / 2` for `n : ℕ`: `repr` of a float whose
value is a half-integer always prints one fractional digit, `.0` or `.5`. -/
def renderHalf (n : ℕ) : List Char :=
  natChars (n / 2) ++ (if n % 2 = 0 then ".0".toList else ".5".toList)

/-- Line 308 of the report renderer, `f"- This Week KPI: **{kpi_score}**\n"`,
given the already-rendered number. -/
def kpiLine (s : List Char) : List Char :=
  "- This Week KPI: **".toList ++ s ++ "**\n".toList

/-- The global KPI measured in half-units: `calculate_kpi` always returns
`kpiHalfUnits s / 2`. -/
def kpiHalfUnits (s : Stats) : ℕ :=
  4 * s.add + 5 * s.fix + 4 * s.bugs_closed + 6 * s.tasks_completed

/-- One aggregation-stage application, for stating whole-pipeline
invariants: each of the three fetch stages with its input. -/
inductive Event where
  | commits (resp : CommitsFetch)
  | issues (wstart : ℤ) (resp : IssuesFetch)
  | project (wstart : ℤ) (items : List PItem)

/-- Run a sequence of aggregation stages from a state, propagating a raised
exception. -/
def runEvents : List Event → St → Except String St
  | [], st => Except.ok st
  | e :: es, st =>
    let r :=
      match e with
      | Event.commits resp => get_commits resp st
      | Event.issues w resp => get_issues w resp st
      | Event.project w items => Except.ok (get_project_tasks w items st)
    match r with
    | Except.ok st2 => runEvents es st2
    | Except.error msg => Except.error msg

/-- Every global counter and every per-contributor numeric field of the
state is non-negative (counters read in `ℤ`, KPI in `ℚ`). -/
def NonNegSt (st : St) : Prop :=
  (0 : ℤ) ≤ st.stats.add ∧ (0 : ℤ) ≤ st.stats.fix ∧
  (0 : ℤ) ≤ st.stats.refactor ∧ (0 : ℤ) ≤ st.stats.other_commits ∧
  (0 : ℤ) ≤ st.stats.issues_opened ∧ (0 : ℤ) ≤ st.stats.issues_closed ∧
  (0 : ℤ) ≤ st.stats.bugs_closed ∧ (0 : ℤ) ≤ st.stats.tasks_completed ∧
  ∀ p ∈ st.contributors,
    0 ≤ p.2.kpi ∧ (0 : ℤ) ≤ p.2.bug_fixes ∧ (0 : ℤ) ≤ p.2.total_actions ∧
    (0 : ℤ) ≤ p.2.add_commits ∧ (0 : ℤ) ≤ p.2.refactor_commits

/-! ### Basic lemmas about the contributor map -/

theorem getContrib_updateContrib_self (m : List (String × Contrib)) (a : String)
    (f : Contrib → Contrib) :
    getContrib (updateContrib m a f) a = f (getContrib m a) := by
  induction m with
  | nil => simp [updateContrib, getContrib]
  | cons hd tl ih =>
    obtain ⟨k, v⟩ := hd
    by_cases h : k = a
    · simp [updateContrib, getContrib, h]
    · simp [updateContrib, getContrib, h, ih]

/-- C1: the global KPI computed by `calculate_kpi` equals exactly
2·add + 2.5·fix + 2·bugs-closed + 3·tasks-completed for any combination of
counter values, is 0 on the all-zero state, and is a pure function of the
four stats fields it reads (states agreeing on them get equal KPIs). -/
theorem calculate_kpi_formula :
    (∀ s : Stats, calculate_kpi s =
      2 * (s.add : ℚ) + 5 / 2 * (s.fix : ℚ) + 2 * (s.bugs_closed : ℚ) +
        3 * (s.tasks_completed : ℚ)) ∧
    calculate_kpi initStats = 0 ∧
    (∀ s t : Stats, s.add = t.add → s.fix = t.fix → s.bugs_closed = t.bugs_closed →
      s.tasks_completed = t.tasks_completed → calculate_kpi s = calculate_kpi t) := by
  refine ⟨fun s => ?_, by norm_num [calculate_kpi, initStats], fun s t h1 h2 h3 h4 => ?_⟩
  · unfold calculate_kpi
    norm_num
  · unfold calculate_kpi
    rw [h1, h2, h3, h4]

/-- Witness for C1: the dependence-only conjunct applied at two concrete
stats records that differ in every field `calculate_kpi` does not read. -/
theorem calculate_kpi_formula_witness :
    calculate_kpi ⟨1, 2, 3, 4, 5, 6, 7, 8⟩ = calculate_kpi ⟨1, 2, 9, 0, 0, 1, 7, 8⟩ :=
  calculate_kpi_formula.2.2 ⟨1, 2, 3, 4, 5, 6, 7, 8⟩ ⟨1, 2, 9, 0, 0, 1, 7, 8⟩ rfl rfl rfl rfl

/-- C3 (failing input): on a malformed, non-list issues payload — here the
GitHub error object, whose key iteration yields the string `message` first —
`get_issues` raises a `TypeError` instead of printing a diagnostic and
returning; the run terminates. -/
theorem get_issues_malformed_raises :
    get_issues 0 (IssuesFetch.ofDict ["message", "documentation_url"]) initSt =
      Except.error "TypeError: string indices must be integers" := rfl

/-- C5 (failing input): a commit whose author object is `null` raises a
`TypeError` when line 77 subscripts the `null` author for the date, so the
record is never attributed to `Unknown` nor classified. -/
theorem processCommit_missing_author_raises :
    processCommit ⟨"add new feature".toList, none⟩ initSt =
      Except.error "TypeError: NoneType object is not subscriptable" := rfl

/-- C7: a project item whose update timestamp falls outside the trailing
window is ignored entirely — it leaves the state (counters, contributors and
the rendered task list) untouched, and a whole project-task run equals the
run on only the in-window items. -/
theorem out_of_window_item_ignored :
    (∀ (w : ℤ) (it : PItem) (st : St), it.updatedAt < w → processItem w it st = st) ∧
    (∀ (w : ℤ) (items : List PItem) (st : St),
      get_project_tasks w items st =
        get_project_tasks w (items.filter (fun it => decide (w ≤ it.updatedAt))) st) := by
  have h1 : ∀ (w : ℤ) (it : PItem) (st : St), it.updatedAt < w → processItem w it st = st := by
    intro w it st h
    simp only [processItem]
    rw [if_neg (by omega)]
  refine ⟨h1, fun w items => ?_⟩
  induction items with
  | nil => intro st; rfl
  | cons it rest ih =>
    intro st
    by_cases h : w ≤ it.updatedAt
    · have hf : (it :: rest).filter (fun it => decide (w ≤ it.updatedAt)) =
          it :: rest.filter (fun it => decide (w ≤ it.updatedAt)) := by
        simp [List.filter_cons, h]
      rw [hf]
      simp only [get_project_tasks, List.foldl_cons]
      exact ih (processItem w it st)
    · have hf : (it :: rest).filter (fun it => decide (w ≤ it.updatedAt)) =
          rest.filter (fun it => decide (w ≤ it.updatedAt)) := by
        simp [List.filter_cons, h]
      rw [hf]
      simp only [get_project_tasks, List.foldl_cons]
      rw [h1 w it st (by omega)]
      exact ih st

/-- Witness for C7: a concrete item five units before the window bound is
dropped from a run started at the initial state. -/
theorem out_of_window_item_ignored_witness :
    processItem 0 ⟨-5, none, []⟩ initSt = initSt :=
  out_of_window_item_ignored.1 0 ⟨-5, none, []⟩ initSt (by decide)

/-- C2: for a commit record (with a present author object — an absent one
raises before classification, see the C5 theorem), the classifier lowercases
the message and applies exactly one of four mutually exclusive rules in
fixed priority order: `fix` (even when `add` also appears) bumps the global
fix counter, kpi +2.5 and the bug-fix count; else `add`/`enhancement` bumps
the add counter, kpi +2 and the add-commit count; else `refactor` bumps the
refactor counter, kpi +1 and the refactor-commit count; else the other
counter and kpi +1; and in all four cases the total-action count grows by 1
and the commit's calendar date joins the contributor's active-day set. -/
theorem commit_classification (msg : List Char) (an : String) (d : ℤ) (st : St) :
    ∃ st2, processCommit ⟨msg, some ⟨an, d⟩⟩ st = Except.ok st2 ∧
      (getContrib st2.contributors an).total_actions =
        (getContrib st.contributors an).total_actions + 1 ∧
      (getContrib st2.contributors an).active_days =
        insert d (getContrib st.contributors an).active_days ∧
      (containsSub "fix".toList (lowerChars msg) = true →
        st2.stats = { st.stats with fix := st.stats.fix + 1 } ∧
        (getContrib st2.contributors an).kpi = (getContrib st.contributors an).kpi + 2.5 ∧
        (getContrib st2.contributors an).bug_fixes =
          (getContrib st.contributors an).bug_fixes + 1 ∧
        (getContrib st2.contributors an).add_commits =
          (getContrib st.contributors an).add_commits ∧
        (getContrib st2.contributors an).refactor_commits =
          (getContrib st.contributors an).refactor_commits) ∧
      (containsSub "fix".toList (lowerChars msg) = false →
        (containsSub "add".toList (lowerChars msg) ||
            containsSub "enhancement".toList (lowerChars msg)) = true →
        st2.stats = { st.stats with add := st.stats.add + 1 } ∧
        (getContrib st2.contributors an).kpi = (getContrib st.contributors an).kpi + 2 ∧
        (getContrib st2.contributors an).add_commits =
          (getContrib st.contributors an).add_commits + 1 ∧
        (getContrib st2.contributors an).bug_fixes =
          (getContrib st.contributors an).bug_fixes ∧
        (getContrib st2.contributors an).refactor_commits =
          (getContrib st.contributors an).refactor_commits) ∧
      (containsSub "fix".toList (lowerChars msg) = false →
        (containsSub "add".toList (lowerChars msg) ||
            containsSub "enhancement".toList (lowerChars msg)) = false →
        containsSub "refactor".toList (lowerChars msg) = true →
        st2.stats = { st.stats with refactor := st.stats.refactor + 1 } ∧
        (getContrib st2.contributors an).kpi = (getContrib st.contributors an).kpi + 1 ∧
        (getContrib st2.contributors an).refactor_commits =
          (getContrib st.contributors an).refactor_commits + 1 ∧
        (getContrib st2.contributors an).bug_fixes =
          (getContrib st.contributors an).bug_fixes ∧
        (getContrib st2.contributors an).add_commits =
          (getContrib st.contributors an).add_commits) ∧
      (containsSub "fix".toList (lowerChars msg) = false →
        (containsSub "add".toList (lowerChars msg) ||
            containsSub "enhancement".toList (lowerChars msg)) = false →
        containsSub "refactor".toList (lowerChars msg) = false →
        st2.stats = { st.stats with other_commits := st.stats.other_commits + 1 } ∧
        (getContrib st2.contributors an).kpi = (getContrib st.contributors an).kpi + 1 ∧
        (getContrib st2.contributors an).bug_fixes =
          (getContrib st.contributors an).bug_fixes ∧
        (getContrib st2.contributors an).add_commits =
          (getContrib st.contributors an).add_commits ∧
        (getContrib st2.contributors an).refactor_commits =
          (getContrib st.contributors an).refactor_commits) := by
  cases hf : containsSub "fix".toList (lowerChars msg) with
  | true =>
    simp at hf
    simp [processCommit, getContrib_updateContrib_self, hf]
  | false =>
    simp at hf
    cases ha : (containsSub "add".toList (lowerChars msg) ||
        containsSub "enhancement".toList (lowerChars msg)) with
    | true =>
      simp at ha
      simp [processCommit, getContrib_updateContrib_self, hf, ha]
    | false =>
      simp at ha
      obtain ⟨ha1, ha2⟩ := ha
      cases hr : containsSub "refactor".toList (lowerChars msg) with
      | true =>
        simp at hr
        simp [processCommit, getContrib_updateContrib_self, hf, ha1, ha2, hr]
      | false =>
        simp at hr
        simp [processCommit, getContrib_updateContrib_self, hf, ha1, ha2, hr]

/-- Witness for C2: the commit message `Fix add typo` contains both `fix`
and `add` (after lowercasing) and still lands in the fix bucket, with all
the side effects evaluated at the initial state. -/
theorem commit_classification_witness :
    ∃ st2, processCommit ⟨"Fix add typo".toList, some ⟨"alice", 3⟩⟩ initSt = Except.ok st2 ∧
      st2.stats.fix = 1 ∧
      (getContrib st2.contributors "alice").kpi = 2.5 ∧
      (getContrib st2.contributors "alice").bug_fixes = 1 ∧
      (getContrib st2.contributors "alice").total_actions = 1 ∧
      (getContrib st2.contributors "alice").active_days = {3} := by
  obtain ⟨st2, h0, htot, hdays, hfix, -, -, -⟩ :=
    commit_classification "Fix add typo".toList "alice" 3 initSt
  obtain ⟨hstats, hkpi, hbug, -, -⟩ := hfix (by decide)
  refine ⟨st2, h0, ?_, ?_, ?_, ?_, ?_⟩
  · rw [hstats]; rfl
  · rw [hkpi]; simp [initSt, getContrib, defaultContrib]
  · rw [hbug]; simp [initSt, getContrib, defaultContrib]
  · rw [htot]; simp [initSt, getContrib, defaultContrib]
  · rw [hdays]; simp [initSt, getContrib, defaultContrib]

/-! ### Lemmas about the badge map -/

theorem mem_getBadges_addBadge (b : List (String × List String)) (n l m lb : String) :
    lb ∈ getBadges (addBadge b n l) m ↔ lb ∈ getBadges b m ∨ (m = n ∧ lb = l) := by
  induction b with
  | nil =>
    by_cases h : n = m
    · subst h
      simp [addBadge, getBadges]
    · have h' : ¬ m = n := fun hh => h hh.symm
      simp [addBadge, getBadges, h, h']
  | cons p t ih =>
    obtain ⟨k, v⟩ := p
    by_cases hk : k = n
    · subst hk
      by_cases hm : k = m
      · subst hm
        simp [addBadge, getBadges]
      · have hm' : ¬ m = k := fun hh => hm hh.symm
        simp [addBadge, getBadges, hm, hm']
    · by_cases hm : k = m
      · subst hm
        have hn' : ¬ k = n := hk
        simp [addBadge, getBadges, hk, hn']
      · simp [addBadge, getBadges, hk, hm, ih]

theorem consFold_cons (k : String) (v : Contrib) (t : List (String × Contrib))
    (b : List (String × List String)) :
    consFold ((k, v) :: t) b =
      consFold t
        (if 3 ≤ v.active_days.card then addBadge b k "Consistent Contributor" else b) := rfl

theorem mem_getBadges_consFold (cs : List (String × Contrib))
    (b : List (String × List String)) (m lb : String) :
    lb ∈ getBadges (consFold cs b) m ↔
      lb ∈ getBadges b m ∨
        (lb = "Consistent Contributor" ∧ ∃ r, (m, r) ∈ cs ∧ 3 ≤ r.active_days.card) := by
  induction cs generalizing b with
  | nil => simp [consFold]
  | cons p t ih =>
    obtain ⟨k, v⟩ := p
    rw [consFold_cons]
    by_cases hc : 3 ≤ v.active_days.card
    · rw [if_pos hc, ih, mem_getBadges_addBadge]
      simp only [List.mem_cons, Prod.mk.injEq]
      constructor
      · rintro ((hb | ⟨hmk, hlb⟩) | ⟨hlb, r, hr, hcard⟩)
        · exact Or.inl hb
        · exact Or.inr ⟨hlb, v, Or.inl ⟨hmk, rfl⟩, hc⟩
        · exact Or.inr ⟨hlb, r, Or.inr hr, hcard⟩
      · rintro (hb | ⟨hlb, r, (⟨hmk, hrv⟩ | hr), hcard⟩)
        · exact Or.inl (Or.inl hb)
        · exact Or.inl (Or.inr ⟨hmk, hlb⟩)
        · exact Or.inr ⟨hlb, r, hr, hcard⟩
    · rw [if_neg hc, ih]
      simp only [List.mem_cons, Prod.mk.injEq]
      constructor
      · rintro (hb | ⟨hlb, r, hr, hcard⟩)
        · exact Or.inl hb
        · exact Or.inr ⟨hlb, r, Or.inr hr, hcard⟩
      · rintro (hb | ⟨hlb, r, (⟨hmk, hrv⟩ | hr), hcard⟩)
        · exact Or.inl hb
        · exact absurd (hrv ▸ hcard) hc
        · exact Or.inr ⟨hlb, r, hr, hcard⟩

theorem foldl_max_mem {α β : Type} [LinearOrder β] (key : α → β) (x : α) (xs : List α) :
    xs.foldl (fun best y => if key best < key y then y else best) x ∈ x :: xs := by
  induction xs generalizing x with
  | nil => simp
  | cons b t ih =>
    simp only [List.foldl_cons]
    by_cases hc : key x < key b
    · rw [if_pos hc]
      rcases List.mem_cons.mp (ih b) with h1 | h1
      · simp [h1]
      · simp [List.mem_cons, Or.inr (Or.inr h1)]
    · rw [if_neg hc]
      rcases List.mem_cons.mp (ih x) with h1 | h1
      · simp [h1]
      · simp [List.mem_cons, Or.inr (Or.inr h1)]

theorem cc_not_in_badgePhases (cs : List (String × Contrib)) (m : String) :
    "Consistent Contributor" ∉ getBadges (badgePhases cs) m := by
  cases cs with
  | nil => simp [badgePhases, pyMax, getBadges]
  | cons x xs =>
    simp only [badgePhases, pyMax]
    repeat' split
    all_goals simp [mem_getBadges_addBadge, getBadges]

theorem nodupKeys_mem_unique {l : List (String × Contrib)} (h : (l.map Prod.fst).Nodup)
    {a : String} {b c : Contrib} (hb : (a, b) ∈ l) (hc : (a, c) ∈ l) : b = c := by
  induction l with
  | nil => simp at hb
  | cons p t ih =>
    obtain ⟨k, v⟩ := p
    simp only [List.map_cons, List.nodup_cons] at h
    obtain ⟨hk, ht⟩ := h
    rcases List.mem_cons.mp hb with h1 | h1 <;> rcases List.mem_cons.mp hc with h2 | h2
    · cases h1; cases h2; rfl
    · cases h1
      exact absurd (List.mem_map_of_mem Prod.fst h2) hk
    · cases h2
      exact absurd (List.mem_map_of_mem Prod.fst h1) hk
    · exact ih ht h1 h2

/-- C6: the `Consistent Contributor` badge is held by a contributor exactly
when their active-day set has at least three elements, regardless of any
other statistic of theirs — in particular it is not a single-winner rule. -/
theorem consistent_contributor_badge (cs : List (String × Contrib)) (name : String)
    (rec : Contrib) (hnd : (cs.map Prod.fst).Nodup) (hmem : (name, rec) ∈ cs) :
    ("Consistent Contributor" ∈ getBadges (assign_badges cs) name ↔
      3 ≤ rec.active_days.card) := by
  have hne : cs.isEmpty = false := by
    cases cs
    · simp at hmem
    · rfl
  rw [assign_badges]
  rw [hne]
  simp only [Bool.false_eq_true, if_false]
  rw [mem_getBadges_consFold]
  constructor
  · rintro (hin | ⟨-, r, hr, hcard⟩)
    · exact absurd hin (cc_not_in_badgePhases cs name)
    · rwa [nodupKeys_mem_unique hnd hmem hr]
  · intro h
    exact Or.inr ⟨rfl, rec, hmem, h⟩

/-- Witness for C6: with two concrete contributors, the one active on three
days holds the badge and the one active on two days does not, although the
latter has the higher KPI. -/
theorem consistent_contributor_badge_witness :
    ("Consistent Contributor" ∈
      getBadges (assign_badges
        [("alice", ⟨1, 0, 3, 0, 0, {1, 2, 3}⟩), ("bob", ⟨9, 0, 2, 0, 0, {1, 2}⟩)]) "alice") ∧
    ¬ ("Consistent Contributor" ∈
      getBadges (assign_badges
        [("alice", ⟨1, 0, 3, 0, 0, {1, 2, 3}⟩), ("bob", ⟨9, 0, 2, 0, 0, {1, 2}⟩)]) "bob") := by
  constructor
  · exact (consistent_contributor_badge _ "alice" ⟨1, 0, 3, 0, 0, {1, 2, 3}⟩
      (by decide) (by simp)).mpr (by decide)
  · intro hin
    exact absurd ((consistent_contributor_badge _ "bob" ⟨9, 0, 2, 0, 0, {1, 2}⟩
      (by decide) (by simp)).mp hin) (by decide)

theorem mem_top_badgePhases (x : String × Contrib) (xs : List (String × Contrib))
    (m : String) :
    ("Top Contributor" ∈ getBadges (badgePhases (x :: xs)) m ↔
      m = (xs.foldl (fun best y => if best.2.kpi < y.2.kpi then y else best) x).1) := by
  simp only [badgePhases, pyMax]
  repeat' split
  all_goals simp [mem_getBadges_addBadge, getBadges, eq_comm]

theorem mem_active_badgePhases (x : String × Contrib) (xs : List (String × Contrib))
    (m : String) :
    ("Most Active" ∈ getBadges (badgePhases (x :: xs)) m ↔
      m = (xs.foldl
        (fun best y => if best.2.total_actions < y.2.total_actions then y else best) x).1) := by
  simp only [badgePhases, pyMax]
  repeat' split
  all_goals simp [mem_getBadges_addBadge, getBadges, eq_comm]

/-- C10 (implicit): on a non-empty contributor map, exactly one contributor
holds `Top Contributor` and exactly one holds `Most Active` — even when all
KPI scores and total-action counts are zero — while the three
positive-maximum badges (`Bug Squasher`, `Feature Creator`,
`Code Refactorer`) are withheld from everybody whenever the relevant
statistic is zero across the board. -/
theorem top_and_most_active_unique (cs : List (String × Contrib)) (h : cs ≠ []) :
    (∃! n : String, "Top Contributor" ∈ getBadges (assign_badges cs) n) ∧
    (∃! n : String, "Most Active" ∈ getBadges (assign_badges cs) n) ∧
    ((∀ p ∈ cs, p.2.bug_fixes = 0) →
      ∀ n : String, "Bug Squasher" ∉ getBadges (assign_badges cs) n) ∧
    ((∀ p ∈ cs, p.2.add_commits = 0) →
      ∀ n : String, "Feature Creator" ∉ getBadges (assign_badges cs) n) ∧
    ((∀ p ∈ cs, p.2.refactor_commits = 0) →
      ∀ n : String, "Code Refactorer" ∉ getBadges (assign_badges cs) n) := by
  obtain ⟨x, xs, rfl⟩ : ∃ y ys, cs = y :: ys := by
    cases cs with
    | nil => exact absurd rfl h
    | cons y ys => exact ⟨y, ys, rfl⟩
  have hassign : assign_badges (x :: xs) = consFold (x :: xs) (badgePhases (x :: xs)) := rfl
  have hmem : ∀ (lb : String), lb ≠ "Consistent Contributor" →
      ∀ n, (lb ∈ getBadges (assign_badges (x :: xs)) n ↔
        lb ∈ getBadges (badgePhases (x :: xs)) n) := by
    intro lb hlb n
    rw [hassign, mem_getBadges_consFold]
    constructor
    · rintro (hb | ⟨hcc, -⟩)
      · exact hb
      · exact absurd hcc hlb
    · exact fun hb => Or.inl hb
  refine ⟨?_, ?_, ?_, ?_, ?_⟩
  · refine ⟨(xs.foldl (fun best y => if best.2.kpi < y.2.kpi then y else best) x).1, ?_, ?_⟩
    · show "Top Contributor" ∈ getBadges (assign_badges (x :: xs))
        (xs.foldl (fun best y => if best.2.kpi < y.2.kpi then y else best) x).1
      rw [hmem "Top Contributor" (by decide), mem_top_badgePhases]
    · intro n hn
      rw [hmem "Top Contributor" (by decide), mem_top_badgePhases] at hn
      exact hn
  · refine ⟨(xs.foldl
        (fun best y => if best.2.total_actions < y.2.total_actions then y else best) x).1,
        ?_, ?_⟩
    · show "Most Active" ∈ getBadges (assign_badges (x :: xs))
        (xs.foldl
          (fun best y => if best.2.total_actions < y.2.total_actions then y else best) x).1
      rw [hmem "Most Active" (by decide), mem_active_badgePhases]
    · intro n hn
      rw [hmem "Most Active" (by decide), mem_active_badgePhases] at hn
      exact hn
  · intro hz n hn
    rw [hmem "Bug Squasher" (by decide) n] at hn
    have hwin := hz _ (foldl_max_mem (fun p : String × Contrib => p.2.bug_fixes) x xs)
    revert hn
    simp only [badgePhases, pyMax]
    repeat' split
    all_goals simp [mem_getBadges_addBadge, getBadges]
    all_goals omega
  · intro hz n hn
    rw [hmem "Feature Creator" (by decide) n] at hn
    have hwin := hz _ (foldl_max_mem (fun p : String × Contrib => p.2.add_commits) x xs)
    revert hn
    simp only [badgePhases, pyMax]
    repeat' split
    all_goals simp [mem_getBadges_addBadge, getBadges]
    all_goals omega
  · intro hz n hn
    rw [hmem "Code Refactorer" (by decide) n] at hn
    have hwin := hz _ (foldl_max_mem (fun p : String × Contrib => p.2.refactor_commits) x xs)
    revert hn
    simp only [badgePhases, pyMax]
    repeat' split
    all_goals simp [mem_getBadges_addBadge, getBadges]
    all_goals omega

/-- Witness for C10: a single contributor with all statistics zero still
receives `Top Contributor` (uniquely) while `Bug Squasher` is withheld. -/
theorem top_and_most_active_unique_witness :
    (∃! n : String,
      "Top Contributor" ∈ getBadges (assign_badges [("alice", defaultContrib)]) n) ∧
    (∀ n : String, "Bug Squasher" ∉ getBadges (assign_badges [("alice", defaultContrib)]) n) := by
  obtain ⟨h1, -, h3, -, -⟩ := top_and_most_active_unique [("alice", defaultContrib)] (by simp)
  exact ⟨h1, h3 (by simp [defaultContrib])⟩

/-! ### Non-negativity preservation lemmas -/

theorem updateContrib_kpi_nonneg (m : List (String × Contrib)) (a : String)
    (f : Contrib → Contrib) (hf : ∀ r, 0 ≤ r.kpi → 0 ≤ (f r).kpi)
    (hm : ∀ p ∈ m, 0 ≤ p.2.kpi) :
    ∀ p ∈ updateContrib m a f, 0 ≤ p.2.kpi := by
  induction m with
  | nil =>
    intro p hp
    simp only [updateContrib, List.mem_singleton] at hp
    subst hp
    exact hf defaultContrib le_rfl
  | cons q t ih =>
    obtain ⟨k, v⟩ := q
    intro p hp
    by_cases hk : k = a
    · rw [updateContrib, if_pos hk] at hp
      rcases List.mem_cons.mp hp with hp | hp
      · subst hp
        exact hf v (hm (k, v) (List.mem_cons_self _ _))
      · exact hm p (List.mem_cons_of_mem _ hp)
    · rw [updateContrib, if_neg hk] at hp
      rcases List.mem_cons.mp hp with hp | hp
      · subst hp
        exact hm (k, v) (List.mem_cons_self _ _)
      · exact ih (fun q hq => hm q (List.mem_cons_of_mem _ hq)) p hp

theorem processCommit_kpi_nonneg (c : Commit) (st st2 : St)
    (h : processCommit c st = Except.ok st2)
    (hm : ∀ p ∈ st.contributors, 0 ≤ p.2.kpi) :
    ∀ p ∈ st2.contributors, 0 ≤ p.2.kpi := by
  obtain ⟨msg, author⟩ := c
  cases author with
  | none => simp [processCommit] at h
  | some a =>
    simp only [processCommit] at h
    split at h <;>
      [skip; split at h] <;>
      [skip; skip; split at h] <;>
      injection h with h2 <;>
      subst h2 <;>
      exact updateContrib_kpi_nonneg _ _ _ (fun r hr => hr)
        (updateContrib_kpi_nonneg _ _ _ (fun r hr => add_nonneg hr (by norm_num)) hm)

theorem processCommits_kpi_nonneg (cs : List Commit) :
    ∀ (st st2 : St), processCommits cs st = Except.ok st2 →
      (∀ p ∈ st.contributors, 0 ≤ p.2.kpi) → ∀ p ∈ st2.contributors, 0 ≤ p.2.kpi := by
  induction cs with
  | nil =>
    intro st st2 h hm
    simp only [processCommits] at h
    injection h with h2
    subst h2
    exact hm
  | cons c t ih =>
    intro st st2 h hm
    simp only [processCommits] at h
    cases hpc : processCommit c st with
    | ok st3 =>
      rw [hpc] at h
      exact ih st3 st2 h (processCommit_kpi_nonneg c st st3 hpc hm)
    | error e =>
      rw [hpc] at h
      cases h

theorem processIssue_kpi_nonneg (w : ℤ) (i : Issue) (st : St)
    (hm : ∀ p ∈ st.contributors, 0 ≤ p.2.kpi) :
    ∀ p ∈ (processIssue w i st).contributors, 0 ≤ p.2.kpi := by
  simp only [processIssue]
  repeat' split
  all_goals
    first
    | exact hm
    | exact updateContrib_kpi_nonneg _ _ _ (fun r hr => add_nonneg hr (by norm_num)) hm

theorem issuesFoldl_kpi_nonneg (w : ℤ) (l : List Issue) :
    ∀ (st : St), (∀ p ∈ st.contributors, 0 ≤ p.2.kpi) →
      ∀ p ∈ (l.foldl (fun s i => processIssue w i s) st).contributors, 0 ≤ p.2.kpi := by
  induction l with
  | nil => intro st hm; exact hm
  | cons i t ih =>
    intro st hm
    simp only [List.foldl_cons]
    exact ih (processIssue w i st) (processIssue_kpi_nonneg w i st hm)

theorem processItem_contributors (w : ℤ) (it : PItem) (st : St) :
    (processItem w it st).contributors = st.contributors := by
  simp only [processItem]
  repeat' split
  all_goals rfl

theorem get_project_tasks_contributors (w : ℤ) (items : List PItem) :
    ∀ st : St, (get_project_tasks w items st).contributors = st.contributors := by
  induction items with
  | nil => intro st; rfl
  | cons it t ih =>
    intro st
    simp only [get_project_tasks, List.foldl_cons]
    rw [show (List.foldl (fun s it => processItem w it s) (processItem w it st) t) =
      get_project_tasks w t (processItem w it st) from rfl]
    rw [ih, processItem_contributors]

theorem runEvents_kpi_nonneg (evs : List Event) :
    ∀ (st st2 : St), runEvents evs st = Except.ok st2 →
      (∀ p ∈ st.contributors, 0 ≤ p.2.kpi) → ∀ p ∈ st2.contributors, 0 ≤ p.2.kpi := by
  induction evs with
  | nil =>
    intro st st2 h hm
    simp only [runEvents] at h
    injection h with h2
    subst h2
    exact hm
  | cons e es ih =>
    intro st st2 h hm
    cases e with
    | commits resp =>
      cases resp with
      | ofList cs =>
        simp only [runEvents, get_commits] at h
        split at h
        · next st3 heq =>
            exact ih st3 st2 h (processCommits_kpi_nonneg cs st st3 heq hm)
        · exact absurd h (by simp)
      | apiError =>
        simp only [runEvents, get_commits] at h
        exact ih st st2 h hm
    | issues w resp =>
      cases resp with
      | ofList l =>
        simp only [runEvents, get_issues] at h
        exact ih _ st2 h (issuesFoldl_kpi_nonneg w l st hm)
      | ofDict keys =>
        cases keys with
        | nil =>
          simp only [runEvents, get_issues] at h
          exact ih st st2 h hm
        | cons k t =>
          simp only [runEvents, get_issues] at h
          exact absurd h (by simp)
    | project w items =>
      simp only [runEvents] at h
      refine ih _ st2 h ?_
      intro p hp
      rw [get_project_tasks_contributors w items st] at hp
      exact hm p hp

/-- C9: starting from the all-zero initial state, any successful sequence of
commit-classifier, issue-aggregator and project-task-aggregator stages on
well-formed inputs leaves every global counter and every per-contributor
numeric field (kpi, bug-fix, total-action, add-commit, refactor-commit
counts) non-negative. -/
theorem nonneg_invariant (evs : List Event) (st : St)
    (h : runEvents evs initSt = Except.ok st) : NonNegSt st := by
  refine ⟨Int.natCast_nonneg _, Int.natCast_nonneg _, Int.natCast_nonneg _,
    Int.natCast_nonneg _, Int.natCast_nonneg _, Int.natCast_nonneg _,
    Int.natCast_nonneg _, Int.natCast_nonneg _, fun p hp => ⟨?_, Int.natCast_nonneg _,
      Int.natCast_nonneg _, Int.natCast_nonneg _, Int.natCast_nonneg _⟩⟩
  refine runEvents_kpi_nonneg evs initSt st h ?_ p hp
  intro q hq
  simp [initSt] at hq

/-- Witness for C9: a one-commit run from the initial state succeeds and the
resulting concrete state is non-negative. -/
theorem nonneg_invariant_witness :
    runEvents [Event.commits (CommitsFetch.ofList [⟨"add x".toList, some ⟨"a", 0⟩⟩])] initSt =
      Except.ok ⟨⟨1, 0, 0, 0, 0, 0, 0, 0⟩,
        [("a", ⟨defaultContrib.kpi + 2, 0, 1, 1, 0, insert 0 ∅⟩)], []⟩ ∧
    NonNegSt ⟨⟨1, 0, 0, 0, 0, 0, 0, 0⟩,
      [("a", ⟨defaultContrib.kpi + 2, 0, 1, 1, 0, insert 0 ∅⟩)], []⟩ := by
  constructor
  · rfl
  · exact nonneg_invariant
      [Event.commits (CommitsFetch.ofList [⟨"add x".toList, some ⟨"a", 0⟩⟩])] _ rfl

/-! ### Previous-week KPI retrieval -/

theorem mem_insDesc (x y : List Char × List (List Char))
    (l : List (List Char × List (List Char))) :
    y ∈ insDesc x l ↔ y = x ∨ y ∈ l := by
  induction l with
  | nil => simp [insDesc]
  | cons z t ih =>
    by_cases hc : lexLt x.1 z.1
    · simp only [insDesc, if_pos hc, List.mem_cons, ih]
      tauto
    · simp only [insDesc, if_neg hc, List.mem_cons]

theorem mem_sortDesc (l : List (List Char × List (List Char)))
    (y : List Char × List (List Char)) :
    y ∈ sortDesc l ↔ y ∈ l := by
  induction l with
  | nil => simp [sortDesc]
  | cons a t ih =>
    rw [show sortDesc (a :: t) = insDesc a (sortDesc t) from rfl, mem_insDesc]
    simp [ih, eq_comm]

theorem scanReports_findSome (cw : ℕ) (l : List (List Char × List (List Char)))
    (hd : ∀ f ∈ l, (lastNum f.1).isSome = true) :
    scanReports cw l =
      Except.ok ((l.findSome? (fun f =>
        if (lastNum f.1).getD 0 < cw then findKpiLines f.2 else none)).getD 0) := by
  induction l with
  | nil => rfl
  | cons f t ih =>
    obtain ⟨fname, ls⟩ := f
    obtain ⟨w, hw⟩ :=
      Option.isSome_iff_exists.mp (hd (fname, ls) (List.mem_cons_self _ _))
    have ht : ∀ g ∈ t, (lastNum g.1).isSome = true :=
      fun g hg => hd g (List.mem_cons_of_mem _ hg)
    simp only [scanReports, List.findSome?, hw, Option.getD_some]
    by_cases hlt : w < cw
    · rw [if_pos hlt]
      cases hk : findKpiLines ls with
      | some v => simp [hk, hlt]
      | none =>
        simp only [hk, hlt, if_true]
        exact ih ht
    · rw [if_neg hlt]
      simp only [hlt, if_false]
      exact ih ht

/-- C4 (counterexample): with current week 40 and a store holding reports for
weeks 39 (no KPI line) and 38 (KPI line `**5.0**`), the retrieval does NOT
return 0 after failing to find the line in the most recent qualifying report
— it continues to the older report and returns its value 5. -/
theorem prev_kpi_counterexample :
    get_previous_week_kpi 40
      (some [("Weekly_Report_Week_38.md".toList,
               ["# Weekly Report - Week 38\n".toList,
                "- This Week KPI: **5.0**\n".toList]),
             ("Weekly_Report_Week_39.md".toList,
               ["# Weekly Report - Week 39\n".toList,
                "- Trend: Stable\n".toList])]) = Except.ok 5 ∧ (5 : ℚ) ≠ 0 := by
  have hsort : sortDesc
      (([("Weekly_Report_Week_38.md".toList,
           ["# Weekly Report - Week 38\n".toList,
            "- This Week KPI: **5.0**\n".toList]),
         ("Weekly_Report_Week_39.md".toList,
           ["# Weekly Report - Week 39\n".toList,
            "- Trend: Stable\n".toList])]).filter
        (fun f => weekFileStart.isPrefixOf f.1)) =
      [("Weekly_Report_Week_39.md".toList,
         ["# Weekly Report - Week 39\n".toList,
          "- Trend: Stable\n".toList]),
       ("Weekly_Report_Week_38.md".toList,
         ["# Weekly Report - Week 38\n".toList,
          "- This Week KPI: **5.0**\n".toList])] := by decide
  have h39 : lastNum "Weekly_Report_Week_39.md".toList = some 39 := by decide
  have h38 : lastNum "Weekly_Report_Week_38.md".toList = some 38 := by decide
  have hf39 : findKpiLines
      ["# Weekly Report - Week 39\n".toList, "- Trend: Stable\n".toList] = none := by decide
  have hsearch : searchBold "- This Week KPI: **5.0**\n".toList = some ['5', '.', '0'] := by
    decide
  have hparse : parseDec ['5', '.', '0'] = 5 := by
    have htw : List.takeWhile (fun c => c != '.') ['5', '.', '0'] = ['5'] := by decide
    have hdw : List.dropWhile (fun c => c != '.') ['5', '.', '0'] = ['.', '0'] := by decide
    have h5 : parseNat ['5'] = 5 := by decide
    have h0 : parseNat ['0'] = 0 := by decide
    simp only [parseDec, htw, hdw, h5, h0]
    norm_num
  have hc1 : containsSub kpiMarker "# Weekly Report - Week 38\n".toList = false := by decide
  have hc2 : containsSub kpiMarker "- This Week KPI: **5.0**\n".toList = true := by decide
  have hf38 : findKpiLines
      ["# Weekly Report - Week 38\n".toList, "- This Week KPI: **5.0**\n".toList] =
        some 5 := by
    simp only [findKpiLines, List.findSome?, hc1, hc2, if_true, if_false, parseBold,
      hsearch, Option.map_some', hparse, Bool.false_eq_true]
  constructor
  · simp only [get_previous_week_kpi]
    rw [hsort]
    simp only [scanReports, h39, h38, hf39, hf38]
    norm_num
  · norm_num

/-- C4 (amended): the retrieval scans the filtered report filenames in
descending lexical order and returns the bolded decimal from the FIRST
report in that order whose embedded week number is below the current week
AND whose lines yield a parsable KPI value; a qualifying report without such
a line is passed over in favour of older reports, and 0 is returned only
when no qualifying report yields a value (filenames are assumed to embed a
number, as digitless ones raise `IndexError`). -/
theorem prev_kpi_descending_scan (cw : ℕ) (files : List (List Char × List (List Char)))
    (hd : ∀ f ∈ files, weekFileStart.isPrefixOf f.1 = true → (lastNum f.1).isSome = true) :
    get_previous_week_kpi cw (some files) =
      Except.ok (((sortDesc (files.filter (fun f => weekFileStart.isPrefixOf f.1))).findSome?
        (fun f => if (lastNum f.1).getD 0 < cw then findKpiLines f.2 else none)).getD 0) := by
  simp only [get_previous_week_kpi]
  refine scanReports_findSome cw _ ?_
  intro f hf
  rw [mem_sortDesc] at hf
  obtain ⟨hmemf, hpred⟩ := List.mem_filter.mp hf
  exact hd f hmemf hpred

/-- Witness for C4's amended theorem at the concrete two-report store. -/
theorem prev_kpi_descending_scan_witness :
    get_previous_week_kpi 40
      (some [("Weekly_Report_Week_41.md".toList, ["- This Week KPI: **9.0**\n".toList]),
             ("Weekly_Report_Week_37.md".toList, ["- This Week KPI: **4.5**\n".toList])]) =
      Except.ok (((sortDesc
        (([("Weekly_Report_Week_41.md".toList, ["- This Week KPI: **9.0**\n".toList]),
           ("Weekly_Report_Week_37.md".toList,
             ["- This Week KPI: **4.5**\n".toList])]).filter
          (fun f => weekFileStart.isPrefixOf f.1))).findSome?
        (fun f => if (lastNum f.1).getD 0 < 40 then findKpiLines f.2 else none)).getD 0) :=
  prev_kpi_descending_scan 40
    [("Weekly_Report_Week_41.md".toList, ["- This Week KPI: **9.0**\n".toList]),
     ("Weekly_Report_Week_37.md".toList, ["- This Week KPI: **4.5**\n".toList])]
    (by decide)

/-! ### Round-trip of the rendered KPI line -/

theorem digitChar_isDigit {d : ℕ} (h : d < 10) : (Nat.digitChar d).isDigit = true := by
  interval_cases d <;> decide

theorem charDigit_digitChar {d : ℕ} (h : d < 10) : charDigit (Nat.digitChar d) = d := by
  interval_cases d <;> decide

theorem isDigit_ne_dot {c : Char} (h : c.isDigit = true) : (c != '.') = true := by
  have hne : c ≠ '.' := by
    intro he
    subst he
    exact absurd h (by decide)
  simp [bne_iff_ne, hne]

theorem isDigit_ne_star {c : Char} (h : c.isDigit = true) : (c == '*') = false := by
  have hne : c ≠ '*' := by
    intro he
    subst he
    exact absurd h (by decide)
  simp [hne]

theorem natChars_ne_nil (m : ℕ) : natChars m ≠ [] := by
  unfold natChars
  split
  · simp
  · next h =>
    simp [Nat.digits_ne_nil_iff_ne_zero.mpr h]

theorem natChars_all_digit (m : ℕ) : ∀ c ∈ natChars m, c.isDigit = true := by
  unfold natChars
  split
  · intro c hc
    simp at hc
    subst hc
    decide
  · intro c hc
    simp only [List.mem_map, List.mem_reverse] at hc
    obtain ⟨d, hd, rfl⟩ := hc
    exact digitChar_isDigit (Nat.digits_lt_base (by norm_num) hd)

theorem parseNat_append_last (xs : List Char) (c : Char) :
    parseNat (xs ++ [c]) = 10 * parseNat xs + charDigit c := by
  simp [parseNat, List.foldl_append]

theorem parseNat_digits_rev (L : List ℕ) (h : ∀ d ∈ L, d < 10) :
    parseNat (L.reverse.map Nat.digitChar) = Nat.ofDigits 10 L := by
  induction L with
  | nil => simp [parseNat, Nat.ofDigits_nil]
  | cons d t ih =>
    rw [List.reverse_cons, List.map_append, List.map_singleton, parseNat_append_last,
      ih (fun e he => h e (List.mem_cons_of_mem _ he)),
      charDigit_digitChar (h d (List.mem_cons_self _ _)), Nat.ofDigits_cons]
    ring

theorem parseNat_natChars (m : ℕ) : parseNat (natChars m) = m := by
  unfold natChars
  split
  · next h =>
    subst h
    decide
  · rw [parseNat_digits_rev (Nat.digits 10 m)
      (fun d hd => Nat.digits_lt_base (by norm_num) hd)]
    exact Nat.ofDigits_digits 10 m

theorem takeWhile_append_all (p : Char → Bool) (xs ys : List Char)
    (h : ∀ x ∈ xs, p x = true) :
    (xs ++ ys).takeWhile p = xs ++ ys.takeWhile p := by
  induction xs with
  | nil => rfl
  | cons c t ih =>
    simp only [List.cons_append, List.takeWhile_cons, h c (List.mem_cons_self _ _),
      if_true, List.cons.injEq, true_and]
    exact ih (fun x hx => h x (List.mem_cons_of_mem _ hx))

theorem dropWhile_append_all (p : Char → Bool) (xs ys : List Char)
    (h : ∀ x ∈ xs, p x = true) :
    (xs ++ ys).dropWhile p = ys.dropWhile p := by
  induction xs with
  | nil => rfl
  | cons c t ih =>
    simp only [List.cons_append, List.dropWhile_cons, h c (List.mem_cons_self _ _), if_true]
    exact ih (fun x hx => h x (List.mem_cons_of_mem _ hx))

theorem isPrefixOf_append (pat t u : List Char) (h : pat.isPrefixOf t = true) :
    pat.isPrefixOf (t ++ u) = true := by
  induction pat generalizing t with
  | nil =>
    cases htu : t ++ u with
    | nil => rfl
    | cons x xs => rfl
  | cons a as ih =>
    cases t with
    | nil => simp [List.isPrefixOf] at h
    | cons b bs =>
      simp only [List.isPrefixOf, List.cons_append, Bool.and_eq_true] at h ⊢
      exact ⟨h.1, ih bs h.2⟩

theorem containsSub_nil_left (u : List Char) : containsSub [] u = true := by
  cases u <;> simp [containsSub, List.isPrefixOf]

theorem containsSub_append (pat t : List Char) (h : containsSub pat t = true)
    (u : List Char) : containsSub pat (t ++ u) = true := by
  induction t with
  | nil =>
    have hp : pat = [] := by simpa [containsSub, List.isEmpty_iff] using h
    subst hp
    exact containsSub_nil_left u
  | cons c t ih =>
    simp only [containsSub, Bool.or_eq_true, List.cons_append] at h ⊢
    rcases h with h | h
    · exact Or.inl (isPrefixOf_append _ _ u h)
    · exact Or.inr (ih h)

theorem matchBold_not_star (c : Char) (hc : (c == '*') = false) (l : List Char) :
    matchBold (c :: l) = none := by
  cases l with
  | nil => rfl
  | cons b t => simp [matchBold, hc]

theorem searchBold_append_skip (p rest : List Char)
    (hp : ∀ c ∈ p, (c == '*') = false) :
    searchBold (p ++ rest) = searchBold rest := by
  induction p with
  | nil => rfl
  | cons c t ih =>
    simp only [List.cons_append, searchBold]
    rw [matchBold_not_star c (hp c (List.mem_cons_self _ _))]
    simp only [Option.orElse]
    show searchBold (t ++ rest) = searchBold rest
    exact ih (fun c hc => hp c (List.mem_cons_of_mem _ hc))

theorem matchBold_bold (k : ℕ) (fc : Char) (hfc : fc.isDigit = true) (tail : List Char) :
    matchBold ('*' :: '*' :: (natChars k ++ '.' :: fc :: '*' :: '*' :: tail)) =
      some (natChars k ++ '.' :: [fc]) := by
  have hds : (natChars k ++ '.' :: fc :: '*' :: '*' :: tail).takeWhile Char.isDigit =
      natChars k := by
    rw [takeWhile_append_all Char.isDigit _ _ (natChars_all_digit k)]
    simp [List.takeWhile_cons]
  have hr1 : (natChars k ++ '.' :: fc :: '*' :: '*' :: tail).dropWhile Char.isDigit =
      '.' :: fc :: '*' :: '*' :: tail := by
    rw [dropWhile_append_all Char.isDigit _ _ (natChars_all_digit k)]
    simp [List.dropWhile_cons]
  have hfs : (fc :: '*' :: '*' :: tail).takeWhile Char.isDigit = [fc] := by
    simp [List.takeWhile_cons, hfc]
  have hfs2 : (fc :: '*' :: '*' :: tail).dropWhile Char.isDigit = '*' :: '*' :: tail := by
    simp [List.dropWhile_cons, hfc]
  have hne : (natChars k).isEmpty = false := by
    cases hnc : natChars k with
    | nil => exact absurd hnc (natChars_ne_nil k)
    | cons a b => rfl
  simp only [matchBold, hds, hr1, hfs, hfs2, hne]
  simp [starsAt]

theorem parseDec_render (k : ℕ) (fc : Char) (hfc : fc.isDigit = true) :
    parseDec (natChars k ++ '.' :: [fc]) = (k : ℚ) + (charDigit fc : ℚ) / 10 := by
  have hall : ∀ x ∈ natChars k, (x != '.') = true :=
    fun x hx => isDigit_ne_dot (natChars_all_digit k x hx)
  have htw : (natChars k ++ '.' :: [fc]).takeWhile (fun c => c != '.') = natChars k := by
    rw [takeWhile_append_all _ _ _ hall]
    simp [List.takeWhile_cons]
  have hdw : (natChars k ++ '.' :: [fc]).dropWhile (fun c => c != '.') = '.' :: [fc] := by
    rw [dropWhile_append_all _ _ _ hall]
    simp [List.dropWhile_cons]
  have hone : parseNat [fc] = charDigit fc := by simp [parseNat]
  simp only [parseDec, htw, hdw, parseNat_natChars, hone]
  norm_num

theorem parseBold_kpiLine (n : ℕ) :
    parseBold (kpiLine (renderHalf n)) = some ((n : ℚ) / 2) := by
  have hshape : kpiLine (renderHalf n) =
      "- This Week KPI: ".toList ++
        ('*' :: '*' :: (renderHalf n ++ '*' :: '*' :: ['\n'])) := rfl
  rw [hshape]
  simp only [parseBold]
  rw [searchBold_append_skip _ _ (by decide)]
  by_cases hpar : n % 2 = 0
  · have hr : renderHalf n = natChars (n / 2) ++ '.' :: '0' :: [] := by
      simp [renderHalf, hpar]
    rw [hr]
    rw [show (natChars (n / 2) ++ '.' :: '0' :: []) ++ '*' :: '*' :: ['\n'] =
        natChars (n / 2) ++ '.' :: '0' :: '*' :: '*' :: ['\n'] by simp]
    simp only [searchBold]
    rw [matchBold_bold (n / 2) '0' (by decide) ['\n']]
    simp only [Option.orElse, Option.map_some']
    rw [parseDec_render (n / 2) '0' (by decide)]
    rw [show charDigit '0' = 0 from rfl]
    have hn : (n : ℚ) = 2 * ((n / 2 : ℕ) : ℚ) := by
      exact_mod_cast (by omega : n = 2 * (n / 2))
    rw [hn]
    push_cast
    ring
  · have hr : renderHalf n = natChars (n / 2) ++ '.' :: '5' :: [] := by
      simp [renderHalf, hpar]
    rw [hr]
    rw [show (natChars (n / 2) ++ '.' :: '5' :: []) ++ '*' :: '*' :: ['\n'] =
        natChars (n / 2) ++ '.' :: '5' :: '*' :: '*' :: ['\n'] by simp]
    simp only [searchBold]
    rw [matchBold_bold (n / 2) '5' (by decide) ['\n']]
    simp only [Option.orElse, Option.map_some']
    rw [parseDec_render (n / 2) '5' (by decide)]
    rw [show charDigit '5' = 5 from rfl]
    have hn : (n : ℚ) = 2 * ((n / 2 : ℕ) : ℚ) + 1 := by
      exact_mod_cast (by omega : n = 2 * (n / 2) + 1)
    rw [hn]
    push_cast
    ring

/-- C8: the renderer's `This Week KPI: **<number>**` line (line 308) written
for any global KPI value — always a half-integer, `kpiHalfUnits s / 2` — is
parsed back to exactly that value by the retrieval routine's per-line scan
(marker containment plus the bolded-decimal regex); writer and reader
compose to the identity, in particular for the value 7.5. -/
theorem kpi_line_roundtrip :
    (∀ s : Stats, findKpiLines [kpiLine (renderHalf (kpiHalfUnits s))] =
      some (calculate_kpi s)) ∧
    findKpiLines [kpiLine ("7.5".toList)] = some (7.5 : ℚ) := by
  have hline : ∀ sd : List Char, containsSub kpiMarker (kpiLine sd) = true := by
    intro sd
    exact containsSub_append kpiMarker "- This Week KPI: **".toList (by decide) _
  have hfind : ∀ sd : List Char, findKpiLines [kpiLine sd] = parseBold (kpiLine sd) := by
    intro sd
    simp only [findKpiLines, List.findSome?, hline sd, if_true]
    cases hp : parseBold (kpiLine sd) <;> simp [hp, List.findSome?]
  constructor
  · intro s
    rw [hfind, parseBold_kpiLine]
    congr 1
    unfold calculate_kpi kpiHalfUnits
    push_cast
    ring
  · have hnc7 : natChars 7 = ['7'] := by
      have hd7 : Nat.digits 10 7 = [7] := by
        rw [Nat.digits_def' (by norm_num : (1:ℕ) < 10) (by norm_num : 0 < 7)]
        norm_num
      simp [natChars, hd7]
      decide
    have h75 : ("7.5".toList : List Char) = renderHalf 15 := by
      simp [renderHalf, hnc7]
    rw [h75, hfind, parseBold_kpiLine]
    norm_num
